import Mathlib

/-!
Verification of the LESHOH sales-data cleaning pipeline
(`src/services/data_cleaning.py`, `src/services/config.py`).

The pandas columns `quantity`, `price_per_unit`, `total_price` are modelled
as `Option ℚ`: `none` stands for a missing value (NaN), `some x` for the
float `x`, idealized as an exact rational.  Division semantics follow the
vectorized pandas division: `NaN` in either operand gives `NaN`, and
`0 / 0` gives `NaN` (modelled as `none`).  `x / 0` for `x ≠ 0` yields an
infinity in pandas; a rational-valued model has no infinities, so `oDiv`
returns `some (x / 0) = some 0` there, and no theorem below depends on the
value of a division by a zero divisor.

Each pandas pass is a sequence of row-local masked column assignments
followed by row filters, so every pass is embedded as `List.map` /
`List.filter` over a record type, mirroring the statement order of the
source.
-/

namespace LeshohClean

/-- A calendar date, the result type of the date standardizer. -/
structure Date where
  year : ℕ
  month : ℕ
  day : ℕ
deriving DecidableEq

/-- One row of the transaction table (`§3` of the spec, the DataFrame
columns of `data_cleaning.py`).  `π` is the type of the `product_name`
column (`Option String` before normalization, `String` after), `δ` the
type of the `transaction_date` column (`Option String` before
standardization, `Date` after). -/
structure Rec (π δ : Type) where
  transaction_id : String
  customer_id : Option String
  product_id : Option String
  product_name : π
  quantity : Option ℚ
  price_per_unit : Option ℚ
  total_price : Option ℚ
  transaction_date : δ
deriving DecidableEq

/-- Pandas column division (see the module comment for the division-by-zero
convention). -/
def oDiv : Option ℚ → Option ℚ → Option ℚ
  | some x, some y => if x = 0 ∧ y = 0 then none else some (x / y)
  | _, _ => none

/-- Pandas column multiplication: `NaN` is absorbing. -/
def oMul : Option ℚ → Option ℚ → Option ℚ
  | some x, some y => some (x * y)
  | _, _ => none

/-- Pandas column comparison `col > c`: `NaN > c` is `False`. -/
def oGT (a : Option ℚ) (c : ℚ) : Bool :=
  match a with
  | some x => decide (c < x)
  | none => false

section MissingValues

variable {π δ : Type}

/-- `data_cleaning.py` lines 41-44: `mask_p` and the assignment
`price_per_unit := total_price / quantity`, per row. -/
def fillPrice (r : Rec π δ) : Rec π δ :=
  if r.price_per_unit = none ∧ r.quantity ≠ none ∧ r.total_price ≠ none then
    { r with price_per_unit := oDiv r.total_price r.quantity }
  else r

/-- Lines 47-50: `mask_q` and `quantity := total_price / price_per_unit`,
per row, evaluated (as in the source) on the table after the `mask_p`
assignment. -/
def fillQuantity (r : Rec π δ) : Rec π δ :=
  if r.quantity = none ∧ r.price_per_unit ≠ none ∧ r.total_price ≠ none then
    { r with quantity := oDiv r.total_price r.price_per_unit }
  else r

/-- Lines 53-56: `mask_t` and `total_price := quantity * price_per_unit`. -/
def fillTotal (r : Rec π δ) : Rec π δ :=
  if r.total_price = none ∧ r.quantity ≠ none ∧ r.price_per_unit ≠ none then
    { r with total_price := oMul r.quantity r.price_per_unit }
  else r

/-- The `dropna(subset=['price_per_unit','quantity','total_price'])`
predicate of line 59. -/
def hasAllThree (r : Rec π δ) : Bool :=
  r.price_per_unit.isSome && r.quantity.isSome && r.total_price.isSome

/-- `_handle_missing_values` (lines 35-62): three masked column
assignments in source order, then the dropna filter. -/
def handleMissingValues (df : List (Rec π δ)) : List (Rec π δ) :=
  (((df.map fillPrice).map fillQuantity).map fillTotal).filter hasAllThree

/-- The per-record repair-or-drop function that `_handle_missing_values`
computes: the three sequential fills, then `none` if a critical field is
still missing. -/
def repairRec (r : Rec π δ) : Option (Rec π δ) :=
  if hasAllThree (fillTotal (fillQuantity (fillPrice r))) then
    some (fillTotal (fillQuantity (fillPrice r)))
  else none

lemma handleMissingValues_eq_filterMap (df : List (Rec π δ)) :
    handleMissingValues df = df.filterMap repairRec := by
  induction df with
  | nil => rfl
  | cons r rs ih =>
    simp only [handleMissingValues, List.map_cons, List.filter_cons] at *
    by_cases h : hasAllThree (fillTotal (fillQuantity (fillPrice r)))
    · simp [h, List.filterMap_cons, repairRec, ← List.map_map, ih]
    · simp [h, List.filterMap_cons, repairRec, ← List.map_map, ih]

lemma repairRec_price_missing (r : Rec π δ) (q t : ℚ)
    (hp : r.price_per_unit = none) (hq : r.quantity = some q)
    (ht : r.total_price = some t) (hq0 : q ≠ 0) :
    repairRec r = some { r with price_per_unit := some (t / q) } := by
  simp [repairRec, fillPrice, fillQuantity, fillTotal, hasAllThree,
    oDiv, hp, hq, ht, hq0]

lemma repairRec_quantity_missing (r : Rec π δ) (p t : ℚ)
    (hq : r.quantity = none) (hp : r.price_per_unit = some p)
    (ht : r.total_price = some t) (hp0 : p ≠ 0) :
    repairRec r = some { r with quantity := some (t / p) } := by
  simp [repairRec, fillPrice, fillQuantity, fillTotal, hasAllThree,
    oDiv, hp, hq, ht, hp0]

lemma repairRec_total_missing (r : Rec π δ) (q p : ℚ)
    (ht : r.total_price = none) (hq : r.quantity = some q)
    (hp : r.price_per_unit = some p) :
    repairRec r = some { r with total_price := some (q * p) } := by
  simp [repairRec, fillPrice, fillQuantity, fillTotal, hasAllThree,
    oMul, hp, hq, ht]

lemma repairRec_two_missing (r : Rec π δ)
    (h : (r.price_per_unit = none ∧ r.quantity = none) ∨
         (r.price_per_unit = none ∧ r.total_price = none) ∨
         (r.quantity = none ∧ r.total_price = none)) :
    repairRec r = none := by
  rcases h with ⟨h1, h2⟩ | ⟨h1, h2⟩ | ⟨h1, h2⟩ <;>
    simp [repairRec, fillPrice, fillQuantity, fillTotal, hasAllThree, h1, h2]

lemma repairRec_price_zero_div (r : Rec π δ)
    (hp : r.price_per_unit = none) (hq : r.quantity = some 0)
    (ht : r.total_price = some 0) : repairRec r = none := by
  simp [repairRec, fillPrice, fillQuantity, fillTotal, hasAllThree,
    oDiv, hp, hq, ht]

lemma repairRec_quantity_zero_div (r : Rec π δ)
    (hq : r.quantity = none) (hp : r.price_per_unit = some 0)
    (ht : r.total_price = some 0) : repairRec r = none := by
  simp [repairRec, fillPrice, fillQuantity, fillTotal, hasAllThree,
    oDiv, hp, hq, ht]

lemma repairRec_all_present (r : Rec π δ) (q p t : ℚ)
    (hq : r.quantity = some q) (hp : r.price_per_unit = some p)
    (ht : r.total_price = some t) : repairRec r = some r := by
  simp [repairRec, fillPrice, fillQuantity, fillTotal, hasAllThree,
    hp, hq, ht]

end MissingValues

/-- C1: the missing-value pass is an independent per-record
repair-or-drop (so an earlier repair in the same pass never feeds a later
one); a record with exactly one of {quantity, price_per_unit, total_price}
missing gets that field from the relation total = quantity × price (price
as total/quantity, quantity as total/price, total as quantity × price,
computed from the originally-present fields); a record with two or more of
the three missing is dropped, and a repair whose result is still undefined
(the 0/0 case) is dropped as well. -/
theorem C1_missing_value_repair (π δ : Type) :
    (∀ df : List (Rec π δ), handleMissingValues df = df.filterMap repairRec) ∧
    (∀ (r : Rec π δ) (q t : ℚ), r.price_per_unit = none → r.quantity = some q →
      r.total_price = some t → q ≠ 0 →
      repairRec r = some { r with price_per_unit := some (t / q) }) ∧
    (∀ (r : Rec π δ) (p t : ℚ), r.quantity = none → r.price_per_unit = some p →
      r.total_price = some t → p ≠ 0 →
      repairRec r = some { r with quantity := some (t / p) }) ∧
    (∀ (r : Rec π δ) (q p : ℚ), r.total_price = none → r.quantity = some q →
      r.price_per_unit = some p →
      repairRec r = some { r with total_price := some (q * p) }) ∧
    (∀ r : Rec π δ, ((r.price_per_unit = none ∧ r.quantity = none) ∨
        (r.price_per_unit = none ∧ r.total_price = none) ∨
        (r.quantity = none ∧ r.total_price = none)) → repairRec r = none) ∧
    (∀ r : Rec π δ, r.price_per_unit = none → r.quantity = some 0 →
      r.total_price = some 0 → repairRec r = none) ∧
    (∀ r : Rec π δ, r.quantity = none → r.price_per_unit = some 0 →
      r.total_price = some 0 → repairRec r = none) := by
  refine ⟨handleMissingValues_eq_filterMap, ?_, ?_, ?_, ?_, ?_, ?_⟩
  · exact fun r q t hp hq ht hq0 => repairRec_price_missing r q t hp hq ht hq0
  · exact fun r p t hq hp ht hp0 => repairRec_quantity_missing r p t hq hp ht hp0
  · exact fun r q p ht hq hp => repairRec_total_missing r q p ht hq hp
  · exact fun r h => repairRec_two_missing r h
  · exact fun r hp hq ht => repairRec_price_zero_div r hp hq ht
  · exact fun r hq hp ht => repairRec_quantity_zero_div r hq hp ht

section ProductNames

/-!
`_normalize_product_names` (lines 64-81) and `PRODUCT_MAPPING`
(`config.py` lines 18-31).  Python string/char semantics are modelled for
ASCII text (all pattern letters and canonical names are ASCII): `str.lower`
maps `A`-`Z` to `a`-`z`, `str.title` upper-cases every letter that does not
follow a letter and lower-cases the rest, `str.strip` removes the
whitespace characters, and `re.search(p, s, re.IGNORECASE)` looks for a
match of `p` anywhere in `s`.
-/

/-- Python whitespace `\s` over ASCII: space, tab, newline, vertical tab,
form feed, carriage return. -/
def pySpace (c : Char) : Bool :=
  c = ' ' || c = '\t' || c = '\n' || c = '\x0b' || c = '\x0c' || c = '\r'

/-- ASCII lower-casing of one character (`str.lower`). -/
def pyLowerChar (c : Char) : Char :=
  if 65 ≤ c.toNat ∧ c.toNat ≤ 90 then Char.ofNat (c.toNat + 32) else c

/-- ASCII upper-casing of one character (`str.upper`). -/
def pyUpperChar (c : Char) : Char :=
  if 97 ≤ c.toNat ∧ c.toNat ≤ 122 then Char.ofNat (c.toNat - 32) else c

/-- An ASCII cased (alphabetic) character, as used by `str.title` to decide
word starts. -/
def pyCased (c : Char) : Bool :=
  decide ((65 ≤ c.toNat ∧ c.toNat ≤ 90) ∨ (97 ≤ c.toNat ∧ c.toNat ≤ 122))

/-- `str.strip()`: drop whitespace from both ends. -/
def pyStrip (l : List Char) : List Char :=
  ((l.dropWhile pySpace).reverse.dropWhile pySpace).reverse

/-- `str.lower()`. -/
def pyLower (l : List Char) : List Char := l.map pyLowerChar

/-- `str.title()` body: the Bool records whether the previous character was
cased. -/
def pyTitleAux : Bool → List Char → List Char
  | _, [] => []
  | prev, c :: cs =>
    (if pyCased c then (if prev then pyLowerChar c else pyUpperChar c) else c)
      :: pyTitleAux (pyCased c) cs

/-- `str.title()`: capitalize the first letter of each word. -/
def pyTitle (l : List Char) : List Char := pyTitleAux false l

/-- The regex fragments needed by `PRODUCT_MAPPING`: a literal character,
or an optional character class such as `[-\s]?`. -/
inductive RTok where
  | ch (c : Char)
  | optCls (cs : List Char)

/-- Match a token list against a prefix of the text, case-insensitively
(`re.IGNORECASE`): literal pattern characters are lower case, and each text
character is lower-cased before comparison. -/
def matchToks : List RTok → List Char → Bool
  | [], _ => true
  | RTok.ch _ :: _, [] => false
  | RTok.ch c :: ts, x :: xs => (pyLowerChar x == c) && matchToks ts xs
  | RTok.optCls _ :: ts, [] => matchToks ts []
  | RTok.optCls cs :: ts, x :: xs =>
    ((pyLowerChar x ∈ cs : Bool) && matchToks ts xs) || matchToks ts (x :: xs)

/-- `re.search`: match the pattern anywhere in the text. -/
def rsearch (p : List RTok) (s : List Char) : Bool :=
  match s with
  | [] => matchToks p []
  | _ :: xs => matchToks p s || rsearch p xs

/-- A pattern that is a plain literal string. -/
def litPat (s : String) : List RTok := s.data.map RTok.ch

/-- The character class `[-\s]` of the first `PRODUCT_MAPPING` pattern. -/
def dashOrSpace : List Char := ['-', ' ', '\t', '\n', '\x0b', '\x0c', '\r']

/-- `PRODUCT_MAPPING` (`config.py` lines 18-31), in source order.  The
first pattern is the regex `usb[-\s]?c`; every other pattern is a literal. -/
def PRODUCT_MAPPING : List (List RTok × String) :=
  [ ([RTok.ch 'u', RTok.ch 's', RTok.ch 'b', RTok.optCls dashOrSpace,
      RTok.ch 'c'], "USB-C Cable"),
    (litPat "usbc", "USB-C Cable"),
    (litPat "webcam", "Webcam"),
    (litPat "mouse", "Mouse"),
    (litPat "keyboard", "Keyboard"),
    (litPat "laptop", "Laptop"),
    (litPat "monitor", "Monitor"),
    (litPat "tablet", "Tablet"),
    (litPat "printer", "Printer"),
    (litPat "headphones", "Headphones"),
    (litPat "charger", "Charger"),
    (litPat "smartphone", "Smartphone") ]

/-- The per-name normalization: the column-level
`str.strip().str.lower()` of line 69 followed by the loop of
`normalize_product_name` (lines 71-75): first matching rule wins, fallback
`name.title()`. -/
def normalizeName (name : String) : String :=
  match PRODUCT_MAPPING.find? (fun pr => rsearch pr.1 (pyLower (pyStrip name.data))) with
  | some pr => pr.2
  | none => String.mk (pyTitle (pyLower (pyStrip name.data)))

variable {π δ : Type}

/-- Replace the `product_name` column value (possibly changing its type). -/
def setName (r : Rec π δ) (s : String) : Rec String δ :=
  ⟨r.transaction_id, r.customer_id, r.product_id, s, r.quantity,
    r.price_per_unit, r.total_price, r.transaction_date⟩

/-- `_normalize_product_names` (lines 64-81).  A missing (NaN) name passes
through `str.strip().str.lower()` as NaN and then raises `TypeError` inside
`re.search` (line 73); the raise is modelled as `Except.error ()`. -/
def normalizeProductNames : List (Rec (Option String) δ) → Except Unit (List (Rec String δ))
  | [] => Except.ok []
  | r :: rs =>
    match r.product_name with
    | none => Except.error ()
    | some s =>
      match normalizeProductNames rs with
      | Except.error e => Except.error e
      | Except.ok out => Except.ok (setName r (normalizeName s) :: out)

lemma toNat_ofNat_valid (n : ℕ) (h : n < 55296) : (Char.ofNat n).toNat = n := by
  have hv : n.isValidChar := Or.inl h
  rw [Char.ofNat, dif_pos hv]
  simp [Char.ofNatAux, Char.toNat, UInt32.toNat]

lemma char_toNat_inj {a b : Char} (h : a.toNat = b.toNat) : a = b := by
  apply Char.ext
  exact UInt32.ext h

lemma pyLowerChar_toNat (c : Char) :
    (pyLowerChar c).toNat =
      if 65 ≤ c.toNat ∧ c.toNat ≤ 90 then c.toNat + 32 else c.toNat := by
  unfold pyLowerChar
  split
  · next h => rw [toNat_ofNat_valid _ (by omega)]
  · rfl

lemma pyUpperChar_toNat (c : Char) :
    (pyUpperChar c).toNat =
      if 97 ≤ c.toNat ∧ c.toNat ≤ 122 then c.toNat - 32 else c.toNat := by
  unfold pyUpperChar
  split
  · next h => rw [toNat_ofNat_valid _ (by omega)]
  · rfl

lemma pyCased_pyLowerChar (c : Char) : pyCased (pyLowerChar c) = pyCased c := by
  rw [pyCased, pyCased, decide_eq_decide, pyLowerChar_toNat]
  split <;> omega

lemma pyLowerChar_pyLowerChar (c : Char) :
    pyLowerChar (pyLowerChar c) = pyLowerChar c := by
  apply char_toNat_inj
  rw [pyLowerChar_toNat (pyLowerChar c), pyLowerChar_toNat c]
  split_ifs <;> omega

lemma pyUpperChar_pyLowerChar (c : Char) :
    pyUpperChar (pyLowerChar c) = pyUpperChar c := by
  apply char_toNat_inj
  rw [pyUpperChar_toNat (pyLowerChar c), pyLowerChar_toNat c, pyUpperChar_toNat c]
  split_ifs <;> omega

lemma pyLowerChar_of_not_cased {c : Char} (h : pyCased c = false) :
    pyLowerChar c = c := by
  apply char_toNat_inj
  rw [pyLowerChar_toNat]
  rw [pyCased, decide_eq_false_iff_not] at h
  rw [if_neg (fun hc => h (Or.inl hc))]

lemma pyTitleAux_pyLower (l : List Char) :
    ∀ b, pyTitleAux b (pyLower l) = pyTitleAux b l := by
  induction l with
  | nil => intro b; rfl
  | cons c cs ih =>
    intro b
    simp only [pyLower, List.map_cons, pyTitleAux, pyCased_pyLowerChar]
    rw [show List.map pyLowerChar cs = pyLower cs from rfl, ih]
    congr 1
    by_cases hc : pyCased c
    · simp [hc, pyLowerChar_pyLowerChar, pyUpperChar_pyLowerChar]
    · simp [hc, pyLowerChar_of_not_cased (by simpa using hc)]

/-- Python `str.title` ignores the case of its input, so title-casing the
lower-cased trimmed name equals title-casing the trimmed name. -/
lemma pyTitle_pyLower (l : List Char) : pyTitle (pyLower l) = pyTitle l :=
  pyTitleAux_pyLower l false

lemma find?_eq_some_of_first {α : Type} (p : α → Bool) (l : List α) :
    ∀ (i : ℕ) (h : i < l.length), p (l.get ⟨i, h⟩) = true →
      (∀ j (hj : j < i), p (l.get ⟨j, Nat.lt_trans hj h⟩) = false) →
      l.find? p = some (l.get ⟨i, h⟩) := by
  induction l with
  | nil => intro i h; exact absurd h (by simp)
  | cons a as ih =>
    intro i h hp hprev
    cases i with
    | zero =>
      rw [List.find?_cons_of_pos _ (by simpa using hp)]
      rfl
    | succ k =>
      have h0 : p a = false := by simpa using hprev 0 (Nat.succ_pos k)
      rw [List.find?_cons_of_neg _ (by simp [h0])]
      simpa using ih k (Nat.lt_of_succ_lt_succ h) (by simpa using hp)
        (fun j hj => by simpa using hprev (j + 1) (Nat.succ_lt_succ hj))

end ProductNames

/-- C5: the normalizer trims and lower-cases a product name, then returns
the canonical name of the first `PRODUCT_MAPPING` rule whose pattern
matches anywhere in the lower-cased name; if no rule matches it returns
the title-cased trimmed original; and the table pass applies exactly this
per-name function when every name is present. -/
theorem C5_first_rule_normalization :
    (∀ (name : String) (i : ℕ) (h : i < PRODUCT_MAPPING.length),
      rsearch (PRODUCT_MAPPING.get ⟨i, h⟩).1 (pyLower (pyStrip name.data)) = true →
      (∀ j : Fin PRODUCT_MAPPING.length, (j : ℕ) < i →
        rsearch (PRODUCT_MAPPING.get j).1
          (pyLower (pyStrip name.data)) = false) →
      normalizeName name = (PRODUCT_MAPPING.get ⟨i, h⟩).2) ∧
    (∀ name : String,
      (∀ pr ∈ PRODUCT_MAPPING, rsearch pr.1 (pyLower (pyStrip name.data)) = false) →
      normalizeName name = String.mk (pyTitle (pyStrip name.data))) ∧
    (∀ (δ : Type) (df : List (Rec (Option String) δ)),
      (∀ r ∈ df, r.product_name ≠ none) →
      normalizeProductNames df =
        Except.ok (df.map (fun r => setName r (normalizeName (r.product_name.getD ""))))) := by
  refine ⟨?_, ?_, ?_⟩
  · intro name i h hp hprev
    rw [normalizeName,
      find?_eq_some_of_first (fun pr => rsearch pr.1 (pyLower (pyStrip name.data)))
        PRODUCT_MAPPING i h hp
        (fun j hj => hprev ⟨j, Nat.lt_trans hj h⟩ hj)]
  · intro name hall
    rw [normalizeName]
    have : PRODUCT_MAPPING.find?
        (fun pr => rsearch pr.1 (pyLower (pyStrip name.data))) = none := by
      rw [List.find?_eq_none]
      intro pr hpr
      simp [hall pr hpr]
    rw [this, ← pyTitle_pyLower (pyStrip name.data)]
  · intro δ df hall
    induction df with
    | nil => rfl
    | cons r rs ih =>
      have hr : r.product_name ≠ none := hall r (by simp)
      obtain ⟨s, hs⟩ := Option.ne_none_iff_exists.mp hr
      rw [normalizeProductNames, ← hs,
        ih (fun x hx => hall x (by simp [hx]))]
      simp [← hs]

/-- Witness for C5: the name "wireless mouse" matches the fourth rule
(pattern `mouse`) and none earlier, so it normalizes to "Mouse". -/
theorem C5_first_rule_normalization_witness :
    normalizeName "wireless mouse" = "Mouse" := by
  have h :=
    C5_first_rule_normalization.1 "wireless mouse" 3 (by decide) (by decide)
      (fun j hj => by
        fin_cases j <;> first | decide | exact absurd hj (by decide))
  simpa using h

/-- C6: product-name normalization is idempotent on the canonical
vocabulary: every canonical name emitted by a `PRODUCT_MAPPING` rule is
mapped to itself by the normalizer. -/
theorem C6_normalization_idempotent_on_canonicals :
    PRODUCT_MAPPING.all (fun pr => normalizeName pr.2 == pr.2) = true := by
  decide

section Dates

/-!
`_standardize_dates` (lines 83-124).  `datetime.strptime` is modelled for
the seven formats of the source: the compiled regex must match the whole
string; `%Y` is exactly four digits, `%y` exactly two (00-68 maps to
2000-2068, 69-99 to 1969-1999), `%m` and `%d` are one or two digits within
1-12 resp. 1-31, `%B` is a full English month name matched
case-insensitively, a whitespace in the format matches one or more
whitespace characters, and any other format character matches itself.  A
successful match is then validated by the `datetime` constructor:
year within 1-9999 and day within the month length (Gregorian leap
years). -/

/-- Format tokens of the `strptime` patterns of lines 96-104. -/
inductive FTok where
  | Y
  | y2
  | mnum
  | dnum
  | bname
  | lit (c : Char)
  | ws

/-- Numeric value of an ASCII digit. -/
def digitVal (c : Char) : ℕ := c.toNat - 48

/-- Consume exactly `k` digits, accumulating their value. -/
def parseDigitsExact : ℕ → ℕ → List Char → Option (ℕ × List Char)
  | 0, acc, s => some (acc, s)
  | _ + 1, _, [] => none
  | k + 1, acc, c :: cs =>
    if c.isDigit then parseDigitsExact k (acc * 10 + digitVal c) cs else none

/-- Consume one or two digits, greedily (the `%m`/`%d` regexes). -/
def parseDigits12 : List Char → Option (ℕ × List Char)
  | [] => none
  | c :: cs =>
    if c.isDigit then
      match cs with
      | d :: ds =>
        if d.isDigit then some (digitVal c * 10 + digitVal d, ds)
        else some (digitVal c, cs)
      | [] => some (digitVal c, [])
    else none

/-- The full month names recognised by `%B` (C locale). -/
def monthNames : List (List Char) :=
  ["january".data, "february".data, "march".data, "april".data,
   "may".data, "june".data, "july".data, "august".data,
   "september".data, "october".data, "november".data, "december".data]

/-- Case-insensitively strip a lower-case pattern from the front of the
text. -/
def stripPrefixCI : List Char → List Char → Option (List Char)
  | [], s => some s
  | _ :: _, [] => none
  | p :: ps, c :: cs => if pyLowerChar c == p then stripPrefixCI ps cs else none

def parseMonthNameAux : ℕ → List (List Char) → List Char → Option (ℕ × List Char)
  | _, [], _ => none
  | i, n :: ns, s =>
    match stripPrefixCI n s with
    | some rest => some (i, rest)
    | none => parseMonthNameAux (i + 1) ns s

/-- Match a month name (no name is a prefix of another, so first match is
the only match). -/
def parseMonthName (s : List Char) : Option (ℕ × List Char) :=
  parseMonthNameAux 1 monthNames s

/-- The `strptime` field accumulator (defaults: 1900-01-01). -/
structure PDate where
  year : ℕ
  month : ℕ
  day : ℕ

/-- Run a format over the whole string, recording year/month/day. -/
def parseRun : List FTok → List Char → PDate → Option PDate
  | [], [], pd => some pd
  | [], _ :: _, _ => none
  | FTok.Y :: ts, s, pd =>
    match parseDigitsExact 4 0 s with
    | some (v, rest) => parseRun ts rest { pd with year := v }
    | none => none
  | FTok.y2 :: ts, s, pd =>
    match parseDigitsExact 2 0 s with
    | some (v, rest) =>
      parseRun ts rest { pd with year := if v ≤ 68 then 2000 + v else 1900 + v }
    | none => none
  | FTok.mnum :: ts, s, pd =>
    match parseDigits12 s with
    | some (v, rest) =>
      if 1 ≤ v ∧ v ≤ 12 then parseRun ts rest { pd with month := v } else none
    | none => none
  | FTok.dnum :: ts, s, pd =>
    match parseDigits12 s with
    | some (v, rest) =>
      if 1 ≤ v ∧ v ≤ 31 then parseRun ts rest { pd with day := v } else none
    | none => none
  | FTok.bname :: ts, s, pd =>
    match parseMonthName s with
    | some (v, rest) => parseRun ts rest { pd with month := v }
    | none => none
  | FTok.lit c :: ts, s, pd =>
    match s with
    | x :: xs => if x == c then parseRun ts xs pd else none
    | [] => none
  | FTok.ws :: ts, s, pd =>
    match s with
    | x :: xs => if pySpace x then parseRun ts (xs.dropWhile pySpace) pd else none
    | [] => none

def isLeapYear (y : ℕ) : Bool :=
  y % 4 = 0 && (y % 100 ≠ 0 || y % 400 = 0)

def daysInMonth (y m : ℕ) : ℕ :=
  if m = 2 then (if isLeapYear y then 29 else 28)
  else if m = 4 ∨ m = 6 ∨ m = 9 ∨ m = 11 then 30
  else 31

/-- `datetime.strptime(s, fmt).date()`: match the format against the whole
string, then validate the resulting calendar date as the `datetime`
constructor does. -/
def strptimeDate (fmt : List FTok) (s : List Char) : Option Date :=
  match parseRun fmt s ⟨1900, 1, 1⟩ with
  | none => none
  | some pd =>
    if 1 ≤ pd.year ∧ pd.year ≤ 9999 ∧ 1 ≤ pd.month ∧ pd.month ≤ 12 ∧
        1 ≤ pd.day ∧ pd.day ≤ daysInMonth pd.year pd.month then
      some ⟨pd.year, pd.month, pd.day⟩
    else none

/-- The fixed ordered format list of lines 96-104: `%Y-%m-%d`, `%Y/%m/%d`,
`%d/%m/%Y`, `%m/%d/%Y`, `%B %d, %Y`, `%d-%m-%y`, `%m/%d/%y`. -/
def dateFormats : List (List FTok) :=
  [ [FTok.Y, FTok.lit '-', FTok.mnum, FTok.lit '-', FTok.dnum],
    [FTok.Y, FTok.lit '/', FTok.mnum, FTok.lit '/', FTok.dnum],
    [FTok.dnum, FTok.lit '/', FTok.mnum, FTok.lit '/', FTok.Y],
    [FTok.mnum, FTok.lit '/', FTok.dnum, FTok.lit '/', FTok.Y],
    [FTok.bname, FTok.ws, FTok.dnum, FTok.lit ',', FTok.ws, FTok.Y],
    [FTok.dnum, FTok.lit '-', FTok.mnum, FTok.lit '-', FTok.y2],
    [FTok.mnum, FTok.lit '/', FTok.dnum, FTok.lit '/', FTok.y2] ]

/-- The body of the format loop (lines 106-113): a parsed date is accepted
only if its year lies in [1900, 2030]; otherwise the loop continues. -/
def tryFormats : List (List FTok) → List Char → Option Date
  | [], _ => none
  | f :: fs, s =>
    match strptimeDate f s with
    | some d => if 1900 ≤ d.year ∧ d.year ≤ 2030 then some d else tryFormats fs s
    | none => tryFormats fs s

/-- `parse_date` (lines 87-115): missing values and the literal
"Invalid Date" are unparseable, otherwise the first format whose parse
succeeds with an in-range year wins. -/
def parse_date (v : Option String) : Option Date :=
  match v with
  | none => none
  | some s => if s = "Invalid Date" then none else tryFormats dateFormats s.data

variable {π α δ : Type}

/-- Replace the `transaction_date` column value (possibly changing its
type). -/
def setDate (r : Rec π α) (d : δ) : Rec π δ :=
  ⟨r.transaction_id, r.customer_id, r.product_id, r.product_name,
    r.quantity, r.price_per_unit, r.total_price, d⟩

/-- `_standardize_dates` (lines 83-124): parse the date column, then drop
the rows whose parse failed (`dropna`), fused into one `filterMap`. -/
def standardizeDates (df : List (Rec π (Option String))) : List (Rec π Date) :=
  df.filterMap (fun r => (parse_date r.transaction_date).map (fun d => setDate r d))

/-- `tryFormats` as a first-success search. -/
def acceptFmt (f : List FTok) (s : List Char) : Option Date :=
  match strptimeDate f s with
  | some d => if 1900 ≤ d.year ∧ d.year ≤ 2030 then some d else none
  | none => none

lemma tryFormats_eq_findSome? (fs : List (List FTok)) (s : List Char) :
    tryFormats fs s = fs.findSome? (fun f => acceptFmt f s) := by
  induction fs with
  | nil => rfl
  | cons f fs ih =>
    rw [tryFormats, List.findSome?_cons]
    cases hf : strptimeDate f s with
    | none => simpa [acceptFmt, hf] using ih
    | some d =>
      by_cases hy : 1900 ≤ d.year ∧ d.year ≤ 2030
      · simp [acceptFmt, hf, hy]
      · simpa [acceptFmt, hf, hy] using ih

lemma findSome?_eq_some_first {α β : Type} (f : α → Option β) (l : List α) :
    ∀ b : β, l.findSome? f = some b ↔
      ∃ (i : ℕ) (h : i < l.length), f (l.get ⟨i, h⟩) = some b ∧
        ∀ j (hj : j < i), f (l.get ⟨j, Nat.lt_trans hj h⟩) = none := by
  induction l with
  | nil =>
    intro b
    constructor
    · intro h; simp at h
    · rintro ⟨i, h, -⟩; simp at h
  | cons a as ih =>
    intro b
    rw [List.findSome?_cons]
    cases hfa : f a with
    | some b0 =>
      constructor
      · intro h
        refine ⟨0, by simp, ?_, ?_⟩
        · simpa [hfa] using h
        · intro j hj; exact absurd hj (Nat.not_lt_zero j)
      · rintro ⟨i, h, hi, hprev⟩
        cases i with
        | zero => simpa [hfa] using hi
        | succ k =>
          have h0 := hprev 0 (Nat.succ_pos k)
          simp [hfa] at h0
    | none =>
      rw [ih b]
      constructor
      · rintro ⟨i, h, hi, hprev⟩
        refine ⟨i + 1, Nat.succ_lt_succ h, by simpa using hi, ?_⟩
        intro j hj
        cases j with
        | zero => simpa using hfa
        | succ jj => simpa using hprev jj (Nat.lt_of_succ_lt_succ hj)
      · rintro ⟨i, h, hi, hprev⟩
        cases i with
        | zero => simp [hfa] at hi
        | succ k =>
          refine ⟨k, Nat.lt_of_succ_lt_succ h, by simpa using hi, ?_⟩
          intro j hj
          simpa using hprev (j + 1) (Nat.succ_lt_succ hj)

lemma acceptFmt_eq_some_iff (f : List FTok) (s : List Char) (d : Date) :
    acceptFmt f s = some d ↔
      strptimeDate f s = some d ∧ (1900 ≤ d.year ∧ d.year ≤ 2030) := by
  unfold acceptFmt
  cases hf : strptimeDate f s with
  | none => simp
  | some d0 =>
    by_cases hy : 1900 ≤ d0.year ∧ d0.year ≤ 2030
    · simp only [if_pos hy, Option.some.injEq]
      constructor
      · rintro rfl; exact ⟨rfl, hy⟩
      · rintro ⟨h, -⟩; exact h
    · simp only [if_neg hy]
      constructor
      · intro h; simp at h
      · rintro ⟨h, hy2⟩
        have hd : d0 = d := by simpa using h
        exact absurd hy2 (hd ▸ hy)

lemma acceptFmt_eq_none_iff (f : List FTok) (s : List Char) :
    acceptFmt f s = none ↔
      ∀ d2, strptimeDate f s = some d2 → ¬(1900 ≤ d2.year ∧ d2.year ≤ 2030) := by
  unfold acceptFmt
  cases hf : strptimeDate f s with
  | none => simp
  | some d0 =>
    dsimp only
    by_cases hy : 1900 ≤ d0.year ∧ d0.year ≤ 2030
    · rw [if_pos hy]
      constructor
      · intro h; simp at h
      · intro h; exact absurd hy (h d0 rfl)
    · rw [if_neg hy]
      constructor
      · intro _ d2 hd2
        have hd : d0 = d2 := by simpa using hd2
        exact hd ▸ hy
      · intro _; rfl

end Dates

/-- C4: the date standardizer tries the fixed format list in order and,
for a present non-sentinel string, returns the date of the first format
that parses it with a year in [1900, 2030] (a parse with an out-of-range
year moves on to the next format); a missing value, the literal
"Invalid Date", and a string no format accepts make the record
unparseable, and unparseable records are dropped from the table. -/
theorem C4_date_standardizer_first_format :
    (parse_date none = none) ∧
    (parse_date (some "Invalid Date") = none) ∧
    (∀ (s : String) (d : Date), s ≠ "Invalid Date" →
      (parse_date (some s) = some d ↔
        ∃ (i : ℕ) (h : i < dateFormats.length),
          strptimeDate (dateFormats.get ⟨i, h⟩) s.data = some d ∧
          (1900 ≤ d.year ∧ d.year ≤ 2030) ∧
          ∀ j : Fin dateFormats.length, (j : ℕ) < i →
            ∀ d2, strptimeDate (dateFormats.get j) s.data = some d2 →
              ¬(1900 ≤ d2.year ∧ d2.year ≤ 2030))) ∧
    (∀ s : String, s ≠ "Invalid Date" →
      (∀ f ∈ dateFormats, ∀ d2, strptimeDate f s.data = some d2 →
        ¬(1900 ≤ d2.year ∧ d2.year ≤ 2030)) →
      parse_date (some s) = none) ∧
    (∀ (π : Type) (df : List (Rec π (Option String))),
      standardizeDates df =
        df.filterMap (fun r => (parse_date r.transaction_date).map (fun d => setDate r d))) := by
  refine ⟨rfl, rfl, ?_, ?_, fun π df => rfl⟩
  · intro s d hs
    rw [parse_date, if_neg hs, tryFormats_eq_findSome?,
      findSome?_eq_some_first (fun f => acceptFmt f s.data) dateFormats d]
    constructor
    · rintro ⟨i, h, hi, hprev⟩
      rw [acceptFmt_eq_some_iff] at hi
      refine ⟨i, h, hi.1, hi.2, ?_⟩
      intro j hj d2 hd2
      have hnone := hprev (j : ℕ) hj
      rw [acceptFmt_eq_none_iff] at hnone
      have hg : dateFormats.get ⟨(j : ℕ), Nat.lt_trans hj h⟩ = dateFormats.get j := by
        congr 1
      rw [hg] at hnone
      exact hnone d2 hd2
    · rintro ⟨i, h, hi, hy, hprev⟩
      refine ⟨i, h, ?_, ?_⟩
      · rw [acceptFmt_eq_some_iff]; exact ⟨hi, hy⟩
      · intro j hj
        rw [acceptFmt_eq_none_iff]
        exact fun d2 hd2 => hprev ⟨j, Nat.lt_trans hj h⟩ hj d2 hd2
  · intro s hs hall
    rw [parse_date, if_neg hs, tryFormats_eq_findSome?]
    rw [List.findSome?_eq_none_iff]
    intro f hf
    rw [acceptFmt_eq_none_iff]
    exact fun d2 hd2 => hall f hf d2 hd2

/-- Witness for C4: the string "2025/03/10" fails the first format
(`%Y-%m-%d`) and is accepted by the second (`%Y/%m/%d`) as 2025-03-10. -/
theorem C4_date_standardizer_first_format_witness :
    parse_date (some "2025/03/10") = some ⟨2025, 3, 10⟩ := by
  refine (C4_date_standardizer_first_format.2.2.1 "2025/03/10" ⟨2025, 3, 10⟩
    (by decide)).mpr ⟨1, by decide, by decide, by decide, ?_⟩
  intro j hj
  fin_cases j
  · have hn : strptimeDate (dateFormats.get ⟨0, by decide⟩) "2025/03/10".data = none := by
      decide
    simp only [hn]
    intro d2 hd2
    exact absurd hd2 (by simp)
  all_goals exact absurd hj (by decide)

section Duplicates

variable {π δ : Type} [DecidableEq π] [DecidableEq δ]

/-- The duplicate key of `_remove_duplicates` (line 132): every column
except `transaction_id`. -/
def sansId (r : Rec π δ) :
    Option String × Option String × π × Option ℚ × Option ℚ × Option ℚ × δ :=
  (r.customer_id, r.product_id, r.product_name, r.quantity,
    r.price_per_unit, r.total_price, r.transaction_date)

/-- `drop_duplicates` over all columns except `transaction_id`, with the default
`keep="first"`: scan in order, keep a row iff its key is unseen.  (NaNs
compare equal for deduplication in pandas, as `none = none` does here.) -/
def removeDupAux (seen : List (Option String × Option String × π ×
    Option ℚ × Option ℚ × Option ℚ × δ)) :
    List (Rec π δ) → List (Rec π δ)
  | [] => []
  | r :: rs =>
    if sansId r ∈ seen then removeDupAux seen rs
    else r :: removeDupAux (sansId r :: seen) rs

/-- `_remove_duplicates` (lines 126-135). -/
def removeDuplicates (df : List (Rec π δ)) : List (Rec π δ) :=
  removeDupAux [] df

lemma removeDupAux_sublist (seen : List _) (l : List (Rec π δ)) :
    (removeDupAux seen l).Sublist l := by
  induction l generalizing seen with
  | nil => simp [removeDupAux]
  | cons r rs ih =>
    rw [removeDupAux]
    split
    · exact (ih seen).trans (List.sublist_cons_self r rs)
    · exact (ih (sansId r :: seen)).cons₂ r

lemma removeDupAux_key_covered (seen : List _) (l : List (Rec π δ)) :
    ∀ r ∈ l, sansId r ∈ seen ∨
      ∃ r2 ∈ removeDupAux seen l, sansId r2 = sansId r := by
  induction l generalizing seen with
  | nil => intro r h; exact absurd h (List.not_mem_nil r)
  | cons a as ih =>
    intro r hr
    rw [removeDupAux]
    rcases List.mem_cons.mp hr with rfl | hr2
    · by_cases ha : sansId r ∈ seen
      · exact Or.inl ha
      · rw [if_neg ha]
        exact Or.inr ⟨r, by simp, rfl⟩
    · by_cases ha : sansId a ∈ seen
      · rw [if_pos ha]
        exact ih seen r hr2
      · rw [if_neg ha]
        rcases ih (sansId a :: seen) r hr2 with hseen | ⟨r2, hr2m, hr2k⟩
        · rcases List.mem_cons.mp hseen with heq | hseen2
          · exact Or.inr ⟨a, by simp, heq.symm⟩
          · exact Or.inl hseen2
        · exact Or.inr ⟨r2, by simp [hr2m], hr2k⟩

/-- The first record of `l` whose duplicate key is `k`. -/
def firstWithKey (df : List (Rec π δ))
    (k : Option String × Option String × π ×
      Option ℚ × Option ℚ × Option ℚ × δ) : Option (Rec π δ) :=
  df.find? (fun r => sansId r == k)

lemma removeDupAux_not_seen (seen : List _) (l : List (Rec π δ)) :
    ∀ r2 ∈ removeDupAux seen l, sansId r2 ∉ seen := by
  induction l generalizing seen with
  | nil => intro r2 h; exact absurd h (List.not_mem_nil r2)
  | cons a as ih =>
    intro r2 h
    rw [removeDupAux] at h
    split at h
    · exact ih seen r2 h
    · rcases List.mem_cons.mp h with rfl | h2
      · next ha => exact ha
      · intro hmem
        exact (ih (sansId a :: seen) r2 h2) (List.mem_cons_of_mem _ hmem)

lemma removeDupAux_is_first (seen : List _) (l : List (Rec π δ)) :
    ∀ r2 ∈ removeDupAux seen l, firstWithKey l (sansId r2) = some r2 := by
  induction l generalizing seen with
  | nil => intro r2 h; exact absurd h (List.not_mem_nil r2)
  | cons a as ih =>
    intro r2 h
    rw [removeDupAux] at h
    rw [firstWithKey]
    split at h
    · next ha =>
      have hne : sansId a ≠ sansId r2 := by
        intro heq
        exact (removeDupAux_not_seen seen as r2 h) (heq ▸ ha)
      rw [List.find?_cons_of_neg _ (by simpa using hne)]
      exact ih seen r2 h
    · next ha =>
      rcases List.mem_cons.mp h with rfl | h2
      · rw [List.find?_cons_of_pos _ (by simp)]
      · have hnotin := removeDupAux_not_seen (sansId a :: seen) as r2 h2
        have hne : sansId a ≠ sansId r2 := by
          intro heq
          exact hnotin (heq ▸ List.mem_cons_self _ _)
        rw [List.find?_cons_of_neg _ (by simpa using hne)]
        exact ih (sansId a :: seen) r2 h2

lemma removeDupAux_pairwise (seen : List _) (l : List (Rec π δ)) :
    (removeDupAux seen l).Pairwise (fun a b => sansId a ≠ sansId b) := by
  induction l generalizing seen with
  | nil => exact List.Pairwise.nil
  | cons a as ih =>
    rw [removeDupAux]
    split
    · exact ih seen
    · refine List.Pairwise.cons ?_ (ih (sansId a :: seen))
      intro b hb heq
      exact (removeDupAux_not_seen (sansId a :: seen) as b hb)
        (heq ▸ List.mem_cons_self _ _)

end Duplicates

/-- C9: the duplicate eliminator keeps a subsequence of the table (so
retained records, their `transaction_id` included, are unchanged and stay
in original order), every input record has a retained representative with
the same all-columns-but-`transaction_id` key, every retained record is
the first record of the table carrying its key, and no two retained
records share a key. -/
theorem C9_duplicate_eliminator (π δ : Type) [DecidableEq π] [DecidableEq δ] :
    (∀ df : List (Rec π δ), (removeDuplicates df).Sublist df) ∧
    (∀ df : List (Rec π δ), ∀ r ∈ df,
      ∃ r2 ∈ removeDuplicates df, sansId r2 = sansId r) ∧
    (∀ df : List (Rec π δ), ∀ r2 ∈ removeDuplicates df,
      firstWithKey df (sansId r2) = some r2) ∧
    (∀ df : List (Rec π δ),
      (removeDuplicates df).Pairwise (fun a b => sansId a ≠ sansId b)) := by
  refine ⟨?_, ?_, ?_, ?_⟩
  · intro df; exact removeDupAux_sublist [] df
  · intro df r hr
    rcases removeDupAux_key_covered [] df r hr with hseen | hfound
    · exact absurd hseen (List.not_mem_nil _)
    · exact hfound
  · intro df; exact removeDupAux_is_first [] df
  · intro df; exact removeDupAux_pairwise [] df

/-- The two records of the spec example for duplicate elimination: equal
on every column except `transaction_id` ("t1" vs "t2"). -/
def rDupA : Rec String Date :=
  ⟨"t1", some "CUST001", some "PROD001", "Laptop", some 2, some 100,
    some 200, ⟨2025, 3, 9⟩⟩

def rDupB : Rec String Date :=
  ⟨"t2", some "CUST001", some "PROD001", "Laptop", some 2, some 100,
    some 200, ⟨2025, 3, 9⟩⟩

/-- Witness for C9: of two rows identical except `transaction_id`, exactly
the first-encountered one ("t1") is retained. -/
theorem C9_duplicate_eliminator_witness :
    removeDuplicates [rDupA, rDupB] = [rDupA] ∧
    firstWithKey [rDupA, rDupB] (sansId rDupA) = some rDupA := by
  have h := (C9_duplicate_eliminator String Date).2.2.1 [rDupA, rDupB] rDupA
  constructor
  · decide
  · exact h (by decide)

section Outliers

variable {π δ : Type}

/-- Absolute value on ℚ, written so that the kernel can evaluate it. -/
def rabs (x : ℚ) : ℚ := if x < 0 then -x else x

lemma rabs_eq_abs (x : ℚ) : rabs x = |x| := by
  rw [rabs]
  split
  · next h => exact (abs_of_neg h).symm
  · next h => exact (abs_of_nonneg (not_lt.mp h)).symm

/-- `np.isclose(a, b, rtol=0, atol=0.01)`: true iff `|a - b| ≤ 0.01`,
false when either operand is NaN. -/
def isClose01 (a b : Option ℚ) : Bool :=
  match a, b with
  | some x, some y => decide (rabs (x - y) ≤ 1 / 100)
  | _, _ => false

/-- The mismatch flag of lines 143-148, computed once from the incoming
columns. -/
def mismatched (r : Rec π δ) : Bool :=
  !(isClose01 r.total_price (oMul r.quantity r.price_per_unit))

/-- Lines 154-178: the four masked corrective assignments in source order.
`mask_q` and `mask_p` are evaluated, as in the source, on the columns
after the preceding assignments; those assignments only touch rows of
earlier masks, which are excluded anyway. -/
def correctRecord (r : Rec π δ) : Rec π δ :=
  let m := mismatched r
  let conflict := m && oGT r.quantity 100 && oGT r.price_per_unit 1000
  let r1 := if conflict then
    { r with quantity := oDiv r.total_price r.price_per_unit } else r
  let mq := m && oGT r1.quantity 100 && !conflict
  let r2 := if mq then
    { r1 with quantity := oDiv r1.total_price r1.price_per_unit } else r1
  let mp := m && oGT r2.price_per_unit 1000 && !conflict
  let r3 := if mp then
    { r2 with price_per_unit := oDiv r2.total_price r2.quantity } else r2
  let mt := m && !(mq || mp || conflict)
  if mt then { r3 with total_price := oMul r3.quantity r3.price_per_unit } else r3

/-- Floor of a rational (numerator and denominator are reduced, the
denominator positive), written so that the kernel can evaluate it. -/
def ratFloor (x : ℚ) : ℤ := Int.fdiv x.num x.den

/-- Banker's rounding to an integer (`np.round` half-to-even). -/
def roundHalfEven (x : ℚ) : ℤ :=
  if x - ratFloor x < 1 / 2 then ratFloor x
  else if 1 / 2 < x - ratFloor x then ratFloor x + 1
  else if ratFloor x % 2 = 0 then ratFloor x else ratFloor x + 1

/-- `round(x, 2)` (numpy half-to-even at the second decimal, idealized to
exact decimal arithmetic). -/
def round2 (x : ℚ) : ℚ := (roundHalfEven (x * 100) : ℚ) / 100

/-- Lines 180-183: `quantity.round(0).astype("Int64")`,
`price_per_unit.round(2)`, `total_price.round(2)`, applied to every row. -/
def roundRecord (r : Rec π δ) : Rec π δ :=
  { r with
    quantity := r.quantity.map (fun q => ((roundHalfEven q : ℤ) : ℚ)),
    price_per_unit := r.price_per_unit.map round2,
    total_price := r.total_price.map round2 }

/-- `_handle_outliers` (lines 137-196): the corrective assignments, then
the rounding of all three columns.  The final `np.isclose` recheck of
lines 186-193 only feeds a print and corrects nothing. -/
def handleOutliers (df : List (Rec π δ)) : List (Rec π δ) :=
  (df.map correctRecord).map roundRecord

lemma oDiv_some_of {x y : ℚ} (h : ¬(x = 0 ∧ y = 0)) :
    oDiv (some x) (some y) = some (x / y) := by
  simp [oDiv, h]

lemma mismatched_iff (r : Rec π δ) (q p t : ℚ)
    (hq : r.quantity = some q) (hp : r.price_per_unit = some p)
    (ht : r.total_price = some t) :
    mismatched r = true ↔ 1 / 100 < |t - q * p| := by
  simp [mismatched, isClose01, oMul, hq, hp, ht, not_le, rabs_eq_abs]

lemma correctRecord_not_flagged (r : Rec π δ) (hm : mismatched r = false) :
    correctRecord r = r := by
  unfold correctRecord
  simp [hm]

lemma correctRecord_conflict (r : Rec π δ) (q p t : ℚ)
    (hq : r.quantity = some q) (hp : r.price_per_unit = some p)
    (ht : r.total_price = some t) (hm : mismatched r = true)
    (h100 : 100 < q) (h1000 : 1000 < p) :
    correctRecord r = { r with quantity := oDiv (some t) (some p) } := by
  unfold correctRecord
  simp [hm, oGT, hq, hp, ht, h100, h1000, not_lt_of_lt]

lemma correctRecord_mask_q (r : Rec π δ) (q p t : ℚ)
    (hq : r.quantity = some q) (hp : r.price_per_unit = some p)
    (ht : r.total_price = some t) (hm : mismatched r = true)
    (h100 : 100 < q) (h1000 : ¬1000 < p) :
    correctRecord r = { r with quantity := oDiv (some t) (some p) } := by
  unfold correctRecord
  simp [hm, oGT, hq, hp, ht, h100, h1000]

lemma correctRecord_mask_p (r : Rec π δ) (q p t : ℚ)
    (hq : r.quantity = some q) (hp : r.price_per_unit = some p)
    (ht : r.total_price = some t) (hm : mismatched r = true)
    (h100 : ¬100 < q) (h1000 : 1000 < p) :
    correctRecord r = { r with price_per_unit := oDiv (some t) (some q) } := by
  unfold correctRecord
  simp [hm, oGT, hq, hp, ht, h100, h1000]

lemma correctRecord_mask_t (r : Rec π δ) (q p t : ℚ)
    (hq : r.quantity = some q) (hp : r.price_per_unit = some p)
    (ht : r.total_price = some t) (hm : mismatched r = true)
    (h100 : ¬100 < q) (h1000 : ¬1000 < p) :
    correctRecord r = { r with total_price := some (q * p) } := by
  unfold correctRecord
  simp [hm, oGT, oMul, hq, hp, ht, h100, h1000]

lemma correctRecord_frame (r : Rec π δ) :
    (correctRecord r).transaction_id = r.transaction_id ∧
    (correctRecord r).customer_id = r.customer_id ∧
    (correctRecord r).product_id = r.product_id ∧
    (correctRecord r).product_name = r.product_name ∧
    (correctRecord r).transaction_date = r.transaction_date := by
  unfold correctRecord
  refine ⟨?_, ?_, ?_, ?_, ?_⟩ <;>
    · dsimp only
      repeat' split
      all_goals rfl

lemma roundRecord_frame (r : Rec π δ) :
    (roundRecord r).transaction_id = r.transaction_id ∧
    (roundRecord r).customer_id = r.customer_id ∧
    (roundRecord r).product_id = r.product_id ∧
    (roundRecord r).product_name = r.product_name ∧
    (roundRecord r).transaction_date = r.transaction_date :=
  ⟨rfl, rfl, rfl, rfl, rfl⟩

lemma roundRecord_fixed (r : Rec π δ) (q p t : ℚ)
    (hq : r.quantity = some q) (hp : r.price_per_unit = some p)
    (ht : r.total_price = some t)
    (hqr : ((roundHalfEven q : ℤ) : ℚ) = q) (hpr : round2 p = p)
    (htr : round2 t = t) : roundRecord r = r := by
  cases r
  simp only [roundRecord] at *
  simp_all

end Outliers

/-- C2: the reconciler flags a record iff `|total − quantity × price|`
exceeds 0.01; a flagged record is corrected by exactly the rule selected
by the fixed precedence (both thresholds: quantity := total/price; only
quantity > 100: quantity := total/price; only price > 1000:
price := total/quantity; otherwise total := quantity × price); unflagged
records are untouched by the corrective step; after correction everything
is only rounded (so residual mismatches are not further corrected), and
the pass never removes a row.  Value equations for the division rules are
stated for a nonzero divisor, a zero divisor producing a float infinity
outside this rational model. -/
theorem C2_reconciler_rules (π δ : Type) :
    (∀ df : List (Rec π δ),
      handleOutliers df = df.map (fun r => roundRecord (correctRecord r))) ∧
    (∀ df : List (Rec π δ), (handleOutliers df).length = df.length) ∧
    (∀ (r : Rec π δ) (q p t : ℚ), r.quantity = some q →
      r.price_per_unit = some p → r.total_price = some t →
      (mismatched r = true ↔ 1 / 100 < |t - q * p|)) ∧
    (∀ (r : Rec π δ) (q p t : ℚ), r.quantity = some q →
      r.price_per_unit = some p → r.total_price = some t →
      mismatched r = true → 100 < q → 1000 < p →
      correctRecord r = { r with quantity := some (t / p) }) ∧
    (∀ (r : Rec π δ) (q p t : ℚ), r.quantity = some q →
      r.price_per_unit = some p → r.total_price = some t →
      mismatched r = true → 100 < q → ¬1000 < p → p ≠ 0 →
      correctRecord r = { r with quantity := some (t / p) }) ∧
    (∀ (r : Rec π δ) (q p t : ℚ), r.quantity = some q →
      r.price_per_unit = some p → r.total_price = some t →
      mismatched r = true → ¬100 < q → 1000 < p → q ≠ 0 →
      correctRecord r = { r with price_per_unit := some (t / q) }) ∧
    (∀ (r : Rec π δ) (q p t : ℚ), r.quantity = some q →
      r.price_per_unit = some p → r.total_price = some t →
      mismatched r = true → ¬100 < q → ¬1000 < p →
      correctRecord r = { r with total_price := some (q * p) }) ∧
    (∀ r : Rec π δ, mismatched r = false → correctRecord r = r) := by
  refine ⟨?_, ?_, mismatched_iff, ?_, ?_, ?_, ?_, correctRecord_not_flagged⟩
  · intro df
    rw [handleOutliers, List.map_map]
    rfl
  · intro df
    simp [handleOutliers]
  · intro r q p t hq hp ht hm h100 h1000
    rw [correctRecord_conflict r q p t hq hp ht hm h100 h1000,
      oDiv_some_of (by rintro ⟨-, rfl⟩; norm_num at h1000)]
  · intro r q p t hq hp ht hm h100 h1000 hp0
    rw [correctRecord_mask_q r q p t hq hp ht hm h100 h1000,
      oDiv_some_of (by rintro ⟨-, rfl⟩; exact hp0 rfl)]
  · intro r q p t hq hp ht hm h100 h1000 hq0
    rw [correctRecord_mask_p r q p t hq hp ht hm h100 h1000,
      oDiv_some_of (by rintro ⟨-, rfl⟩; exact hq0 rfl)]
  · intro r q p t hq hp ht hm h100 h1000
    exact correctRecord_mask_t r q p t hq hp ht hm h100 h1000

/-- The conflict example of the spec (quantity 150, price 1500,
total 300): both thresholds exceeded. -/
def rConflict : Rec String Date :=
  ⟨"t3", some "CUST003", some "PROD003", "Laptop", some 150, some 1500,
    some 300, ⟨2025, 3, 9⟩⟩

/-- Witness for C2: on the spec's conflict example the reconciler flags
the row and recomputes quantity as 300/1500 = 0.2 (rounded to 0 by the
rounding step). -/
theorem C2_reconciler_rules_witness :
    correctRecord rConflict = { rConflict with quantity := some (300 / 1500) } ∧
    mismatched rConflict = true ∧
    (roundRecord (correctRecord rConflict)).quantity = some 0 := by
  have hm : mismatched rConflict = true := by
    rw [mismatched_iff rConflict 150 1500 300 rfl rfl rfl,
      show (300 : ℚ) - 150 * 1500 = -224700 by norm_num, abs_neg,
      abs_of_nonneg (by norm_num : (0 : ℚ) ≤ 224700)]
    norm_num
  have h := (C2_reconciler_rules String Date).2.2.2.1 rConflict 150 1500 300
    rfl rfl rfl hm (by norm_num) (by norm_num)
  have hq5 : (300 : ℚ) / 1500 = 1 / 5 := by norm_num
  have hr : roundHalfEven ((5 : ℚ)⁻¹) = 0 := by with_unfolding_all decide
  exact ⟨h, hm, by simp [h, roundRecord, hq5, hr]⟩

/-- C3 (amended): for every flagged record exactly one of {quantity,
price_per_unit, total_price} is changed by the corrective assignments, and
unflagged records are untouched by them; but the rounding of lines 180-183
is applied to every record, so an unflagged record survives the pass
unchanged when (and only because) its quantity is integral and its price
and total are already at two decimals; non-numeric columns are never
touched. -/
theorem C3_amended_single_field_correction (π δ : Type) :
    (∀ (r : Rec π δ) (q p t : ℚ), r.quantity = some q →
      r.price_per_unit = some p → r.total_price = some t →
      mismatched r = true →
      (((correctRecord r).quantity ≠ r.quantity ∧
        (correctRecord r).price_per_unit = r.price_per_unit ∧
        (correctRecord r).total_price = r.total_price) ∨
       ((correctRecord r).quantity = r.quantity ∧
        (correctRecord r).price_per_unit ≠ r.price_per_unit ∧
        (correctRecord r).total_price = r.total_price) ∨
       ((correctRecord r).quantity = r.quantity ∧
        (correctRecord r).price_per_unit = r.price_per_unit ∧
        (correctRecord r).total_price ≠ r.total_price))) ∧
    (∀ r : Rec π δ, mismatched r = false → correctRecord r = r) ∧
    (∀ r : Rec π δ,
      (roundRecord (correctRecord r)).transaction_id = r.transaction_id ∧
      (roundRecord (correctRecord r)).customer_id = r.customer_id ∧
      (roundRecord (correctRecord r)).product_id = r.product_id ∧
      (roundRecord (correctRecord r)).product_name = r.product_name ∧
      (roundRecord (correctRecord r)).transaction_date = r.transaction_date) ∧
    (∀ (r : Rec π δ) (q p t : ℚ), r.quantity = some q →
      r.price_per_unit = some p → r.total_price = some t →
      mismatched r = false →
      ((roundHalfEven q : ℤ) : ℚ) = q → round2 p = p → round2 t = t →
      roundRecord (correctRecord r) = r) := by
  refine ⟨?_, correctRecord_not_flagged, ?_, ?_⟩
  · intro r q p t hq hp ht hm
    have hflag := (mismatched_iff r q p t hq hp ht).mp hm
    by_cases h100 : 100 < q
    · have hres : correctRecord r = { r with quantity := oDiv (some t) (some p) } := by
        by_cases h1000 : 1000 < p
        · exact correctRecord_conflict r q p t hq hp ht hm h100 h1000
        · exact correctRecord_mask_q r q p t hq hp ht hm h100 h1000
      left
      rw [hres]
      refine ⟨?_, by simp, by simp⟩
      simp only [hq]
      by_cases hp0 : p = 0
      · subst hp0
        have ht0 : t ≠ 0 := by
          intro h0
          rw [h0] at hflag
          simp at hflag
          linarith
        rw [oDiv_some_of (by rintro ⟨h0, -⟩; exact ht0 h0)]
        simp only [div_zero, ne_eq, Option.some.injEq]
        intro h0q
        rw [← h0q] at h100
        linarith
      · rw [oDiv_some_of (fun h => hp0 h.2)]
        simp only [ne_eq, Option.some.injEq]
        intro hEq
        rw [div_eq_iff hp0] at hEq
        rw [hEq] at hflag
        simp at hflag
        linarith
    · by_cases h1000 : 1000 < p
      · right; left
        rw [correctRecord_mask_p r q p t hq hp ht hm h100 h1000]
        refine ⟨by simp, ?_, by simp⟩
        simp only [hp]
        by_cases hq0 : q = 0
        · subst hq0
          have ht0 : t ≠ 0 := by
            intro h0
            rw [h0] at hflag
            simp at hflag
            linarith
          rw [oDiv_some_of (by rintro ⟨h0, -⟩; exact ht0 h0)]
          simp only [div_zero, ne_eq, Option.some.injEq]
          intro h0p
          rw [← h0p] at h1000
          linarith
        · rw [oDiv_some_of (fun h => hq0 h.2)]
          simp only [ne_eq, Option.some.injEq]
          intro hEq
          rw [div_eq_iff hq0, mul_comm] at hEq
          rw [hEq] at hflag
          simp at hflag
          linarith
      · right; right
        rw [correctRecord_mask_t r q p t hq hp ht hm h100 h1000]
        refine ⟨by simp, by simp, ?_⟩
        simp only [ht, ne_eq, Option.some.injEq]
        intro hEq
        rw [hEq] at hflag
        simp at hflag
        linarith
  · intro r
    have h1 := correctRecord_frame (r := r)
    have h2 := roundRecord_frame (r := correctRecord r)
    exact ⟨h2.1.trans h1.1, h2.2.1.trans h1.2.1, h2.2.2.1.trans h1.2.2.1,
      h2.2.2.2.1.trans h1.2.2.2.1, h2.2.2.2.2.trans h1.2.2.2.2⟩
  · intro r q p t hq hp ht hm hqr hpr htr
    rw [correctRecord_not_flagged r hm]
    exact roundRecord_fixed r q p t hq hp ht hqr hpr htr

/-- A record the reconciler does not flag (5 = 2.5 × 2 exactly) whose
quantity 2.5 is nevertheless not integral. -/
def rNotFlagged : Rec String Date :=
  ⟨"t1", some "CUST001", some "PROD001", "Laptop", some (5 / 2), some 2,
    some 5, ⟨2025, 3, 9⟩⟩

/-- Counterexample to C3 as stated: `rNotFlagged` is not flagged as a
mismatch, yet the pass changes its quantity from 2.5 to 2 (the rounding
step of lines 180-183 applies to every row). -/
theorem C3_counterexample_rounding_changes_unflagged :
    mismatched rNotFlagged = false ∧
    (handleOutliers [rNotFlagged]).map (fun r => r.quantity) = [some 2] ∧
    rNotFlagged.quantity = some (5 / 2) ∧
    (5 : ℚ) / 2 ≠ 2 := by
  refine ⟨?_, ?_, rfl, by norm_num⟩
  · with_unfolding_all decide
  · with_unfolding_all decide

/-- The spec's "only quantity large" reconciler example: quantity 150,
price 10, total 1000. -/
def rOnlyQ : Rec String Date :=
  ⟨"t4", some "CUST004", some "PROD004", "Laptop", some 150, some 10,
    some 1000, ⟨2025, 3, 9⟩⟩

/-- Witness for the amended C3: the flagged record `rOnlyQ` has exactly
its quantity changed by the corrective step. -/
theorem C3_amended_single_field_correction_witness :
    ((correctRecord rOnlyQ).quantity ≠ rOnlyQ.quantity ∧
     (correctRecord rOnlyQ).price_per_unit = rOnlyQ.price_per_unit ∧
     (correctRecord rOnlyQ).total_price = rOnlyQ.total_price) ∨
    ((correctRecord rOnlyQ).quantity = rOnlyQ.quantity ∧
     (correctRecord rOnlyQ).price_per_unit ≠ rOnlyQ.price_per_unit ∧
     (correctRecord rOnlyQ).total_price = rOnlyQ.total_price) ∨
    ((correctRecord rOnlyQ).quantity = rOnlyQ.quantity ∧
     (correctRecord rOnlyQ).price_per_unit = rOnlyQ.price_per_unit ∧
     (correctRecord rOnlyQ).total_price ≠ rOnlyQ.total_price) := by
  have hm : mismatched rOnlyQ = true := by
    rw [mismatched_iff rOnlyQ 150 10 1000 rfl rfl rfl,
      show (1000 : ℚ) - 150 * 10 = -500 by norm_num, abs_neg,
      abs_of_nonneg (by norm_num : (0 : ℚ) ≤ 500)]
    norm_num
  exact (C3_amended_single_field_correction String Date).1 rOnlyQ 150 10 1000
    rfl rfl rfl hm

instance exceptDecEq {ε α : Type} [DecidableEq ε] [DecidableEq α] :
    DecidableEq (Except ε α) := fun x y =>
  match x, y with
  | Except.ok a, Except.ok b =>
    if h : a = b then isTrue (by rw [h])
    else isFalse (by intro hh; injection hh; exact h (by assumption))
  | Except.error e, Except.error f =>
    if h : e = f then isTrue (by rw [h])
    else isFalse (by intro hh; injection hh; exact h (by assumption))
  | Except.ok _, Except.error _ => isFalse (by intro hh; exact Except.noConfusion hh)
  | Except.error _, Except.ok _ => isFalse (by intro hh; exact Except.noConfusion hh)

section Pipeline

/-- Lines 23-25 of `clean_data`: `astype(int)` / `astype(float)`.  After
the preceding passes the three numeric columns are non-missing and
quantity is integral, so the dtype coercion is a value-level identity. -/
def finalizeTypes (df : List (Rec String Date)) : List (Rec String Date) := df

/-- `clean_data` (lines 7-33): the five passes in fixed order, then the
type finalizer.  The `TypeError` raised by the normalizer on a missing
product name propagates out of the pipeline. -/
def cleanData (df : List (Rec (Option String) (Option String))) :
    Except Unit (List (Rec String Date)) :=
  match normalizeProductNames (handleMissingValues df) with
  | Except.error e => Except.error e
  | Except.ok df2 =>
    Except.ok (finalizeTypes (handleOutliers (removeDuplicates (standardizeDates df2))))

end Pipeline

/-- First of the two pipeline rows refuting C7: a fully consistent row. -/
def r7a : Rec (Option String) (Option String) :=
  ⟨"t1", some "CUST001", some "PROD001", some "laptop", some 1, some 1,
    some 1, some "2025-03-09"⟩

/-- Second row: identical except `transaction_id` and a total of 1.004,
within the 0.01 mismatch tolerance, which rounds to 1.00. -/
def r7b : Rec (Option String) (Option String) :=
  ⟨"t2", some "CUST001", some "PROD001", some "laptop", some 1, some 1,
    some (251 / 250), some "2025-03-09"⟩

/-- The common cleaned shape of the two rows (up to `transaction_id`). -/
def r7aClean : Rec String Date :=
  ⟨"t1", some "CUST001", some "PROD001", "Laptop", some 1, some 1,
    some 1, ⟨2025, 3, 9⟩⟩

def r7bClean : Rec String Date :=
  ⟨"t2", some "CUST001", some "PROD001", "Laptop", some 1, some 1,
    some 1, ⟨2025, 3, 9⟩⟩

set_option maxRecDepth 8000 in
/-- Counterexample to C7 as stated: the two input rows differ in
total_price (1 vs 1.004), so the duplicate eliminator keeps both, but
the rounding that runs afterwards maps both totals to 1.00, and the final
table holds two records that agree on every column except
`transaction_id`. -/
theorem C7_counterexample_rounding_recreates_duplicates :
    cleanData [r7a, r7b] = Except.ok [r7aClean, r7bClean] ∧
    sansId r7aClean = sansId r7bClean ∧
    r7aClean.transaction_id ≠ r7bClean.transaction_id := by
  refine ⟨?_, rfl, by decide⟩
  with_unfolding_all decide

/-- C7 (amended): immediately after the duplicate eliminator no two
records agree on every column except `transaction_id`; the reconciler and
rounding passes that run afterwards may re-introduce such pairs. -/
theorem C7_amended_distinct_after_dedup (π δ : Type) [DecidableEq π] [DecidableEq δ] :
    ∀ df : List (Rec π δ),
      (removeDuplicates df).Pairwise (fun a b => sansId a ≠ sansId b) :=
  fun df => removeDupAux_pairwise [] df

/-- Witness for the amended C7: on the two-row refuting table the dedup
output itself (both rows, which differ in total_price) is pairwise
distinct. -/
theorem C7_amended_distinct_after_dedup_witness :
    (removeDuplicates [r7a, r7b]).Pairwise (fun a b => sansId a ≠ sansId b) :=
  C7_amended_distinct_after_dedup (Option String) (Option String) [r7a, r7b]

/-- A record whose `product_name` is missing (NaN) while the numeric and
date fields are fine. -/
def rNoName : Rec (Option String) (Option String) :=
  ⟨"t9", some "CUST009", some "PROD009", none, some 1, some 2, some 2,
    some "2025-03-09"⟩

/-- C10 is violated by the code: a missing `product_name` flows through
`str.strip().str.lower()` as NaN and `re.search` then raises `TypeError`
(line 73), so the normalizer — and the whole pipeline — propagates an
error instead of dropping or repairing the record. -/
theorem C10_missing_product_name_raises :
    normalizeProductNames [rNoName] = Except.error () ∧
    cleanData [rNoName] = Except.error () := by
  constructor
  · rfl
  · with_unfolding_all decide

/-- A concrete record with `price_per_unit` missing, used to witness C1. -/
def rPriceMissing : Rec String String :=
  ⟨"t1", some "CUST001", some "PROD001", "laptop", some 2, none, some 100,
    "2025-03-09"⟩

/-- Witness for C1: a record with quantity 2, total 100 and a missing
price gets price 50 and survives. -/
theorem C1_missing_value_repair_witness :
    repairRec rPriceMissing =
      some { rPriceMissing with price_per_unit := some (100 / 2) } :=
  (C1_missing_value_repair String String).2.1 rPriceMissing 2 100
    (by decide) rfl rfl (by decide)

/-- A record with all three numeric fields present but mutually
inconsistent (100 ≠ 2 × 3). -/
def rAllPresent : Rec String String :=
  ⟨"t1", some "CUST001", some "PROD001", "laptop", some 2, some 3,
    some 100, "2025-03-09"⟩

/-- Counterexample to C8 as stated: a fully-present record survives the
missing-value pass unchanged even though its total violates the
multiplicative relation — the pass repairs missing fields only and never
reconciles present ones. -/
theorem C8_counterexample_inconsistent_row_survives :
    handleMissingValues [rAllPresent] = [rAllPresent] ∧
    rAllPresent.quantity = some 2 ∧
    rAllPresent.price_per_unit = some 3 ∧
    rAllPresent.total_price = some 100 ∧
    (100 : ℚ) ≠ 2 * 3 := by
  refine ⟨?_, rfl, rfl, rfl, by norm_num⟩
  with_unfolding_all decide

/-- C8 (amended): over tables where each record has at most one of
{quantity, price_per_unit, total_price} missing, a surviving record
that had exactly one field missing and whose repair divisor is nonzero
satisfies total = quantity × price exactly after the repair; a record
with all three fields present survives unchanged, the pass not enforcing
the relation on it (the original C8 fails there, see the
counterexample). -/
theorem C8_amended_relation_after_repair (π δ : Type) :
    (∀ (r : Rec π δ) (q p t : ℚ), r.quantity = some q →
      r.price_per_unit = some p → r.total_price = some t →
      repairRec r = some r) ∧
    (∀ (r : Rec π δ) (q t : ℚ), r.price_per_unit = none → r.quantity = some q →
      r.total_price = some t → q ≠ 0 →
      repairRec r = some { r with price_per_unit := some (t / q) } ∧
        t = q * (t / q)) ∧
    (∀ (r : Rec π δ) (p t : ℚ), r.quantity = none → r.price_per_unit = some p →
      r.total_price = some t → p ≠ 0 →
      repairRec r = some { r with quantity := some (t / p) } ∧
        t = (t / p) * p) ∧
    (∀ (r : Rec π δ) (q p : ℚ), r.total_price = none → r.quantity = some q →
      r.price_per_unit = some p →
      repairRec r = some { r with total_price := some (q * p) }) := by
  refine ⟨?_, ?_, ?_, ?_⟩
  · exact fun r q p t hq hp ht => repairRec_all_present r q p t hq hp ht
  · intro r q t hp hq ht hq0
    refine ⟨repairRec_price_missing r q t hp hq ht hq0, ?_⟩
    rw [mul_comm, div_mul_cancel₀ t hq0]
  · intro r p t hq hp ht hp0
    refine ⟨repairRec_quantity_missing r p t hq hp ht hp0, ?_⟩
    rw [div_mul_cancel₀ t hp0]
  · exact fun r q p ht hq hp => repairRec_total_missing r q p ht hq hp

/-- Witness for the amended C8: the repaired record of `rPriceMissing`
satisfies 100 = 2 × (100/2). -/
theorem C8_amended_relation_after_repair_witness :
    repairRec rPriceMissing =
      some { rPriceMissing with price_per_unit := some (100 / 2) } ∧
    (100 : ℚ) = 2 * (100 / 2) :=
  (C8_amended_relation_after_repair String String).2.1 rPriceMissing 2 100
    rfl rfl rfl (by norm_num)

end LeshohClean
